import Mathlib

/-
Verification of the namespace-label reconciliation and protection engine
(internal/controller of the namespacelabel operator).

The Go code is shallowly embedded as follows:

* A Go `map[string]string` is modelled as an association list
  `Lmap := List (String × String)` whose keys are unique (`NodupKeys`);
  lookup (`lget`), assignment (`lset`) and `delete` (`ldel`) mirror the map
  operations.  Go's range-over-map iterates in unspecified order; the model
  iterates in list order, and theorems that depend on iteration only do so
  in ways that are order independent for maps with unique keys.
* `path/filepath.Match` (Unix build: Separator = '/', backslash escaping
  enabled) is transcribed function-by-function: `getEsc`, the character-class
  range loop (`parseRanges`), `matchChunk` with its `failed` flag,
  `scanChunk`, the remainder-validation loop, the star back-off loop and the
  outer `Pattern` loop.  Strings are modelled as `List Char` of unicode
  scalar values; the byte/rune distinction of the Go code is invisible for
  the ASCII label keys and patterns the operator handles.  Go's loops are
  given an explicit fuel argument that strictly exceeds the pattern length;
  `matchLoop_fuel_high` proves the result does not depend on the fuel.
  `none` models `ErrBadPattern`.
* Fallible Go functions returning `(..., error)` are modelled with `Except`
  / `Option`.
* The Active-state body of `Reconcile` (CR exists, finalizer present,
  namespace found, protection config loaded) is modelled by
  `reconcileActive`: it records the resulting namespace labels, the
  applied-annotation bookkeeping, whether `r.Update(ctx, ns)` was attempted
  (`changed`), whether `r.Status().Update` was attempted, the resulting CR
  status and the returned error.  Store I/O failures and the
  `LastTransitionTime` timestamp are outside the model.
-/

/-! ## Label maps -/

abbrev Lmap := List (String × String)

/-- Go map lookup `m[k]` (comma-ok form): first entry with the key. -/
def lget : Lmap → String → Option String
  | [], _ => none
  | (k, v) :: rest, key => if k = key then some v else lget rest key

/-- Go map assignment `m[k] = v`: update the entry in place, or append. -/
def lset : Lmap → String → String → Lmap
  | [], key, val => [(key, val)]
  | (k, v) :: rest, key, val =>
    if k = key then (key, val) :: rest else (k, v) :: lset rest key val

/-- Go `delete(m, k)`. -/
def ldel : Lmap → String → Lmap
  | [], _ => []
  | (k, v) :: rest, key => if k = key then ldel rest key else (k, v) :: ldel rest key

/-- The key set of the map, in entry order. -/
def lkeys (m : Lmap) : List String := m.map Prod.fst

/-- The Go-map invariant: every key occurs at most once. -/
def NodupKeys (m : Lmap) : Prop := (lkeys m).Nodup

instance : DecidablePred NodupKeys := fun m =>
  inferInstanceAs (Decidable (lkeys m).Nodup)

/-! ## Pattern matcher: transcription of Unix `path/filepath.Match`

`isLabelProtected` (internal/controller/utils.go) calls
`filepath.Match(pattern, labelKey)`.  The functions below transcribe the Go
standard library (`match.go`) for `runtime.GOOS != "windows"`, where
`Separator = '/'`. -/

/-- Result of Go's `matchChunk`: the remaining name on success, a plain
mismatch, or `ErrBadPattern`. -/
inductive MRes where
  | ok : List Char → MRes
  | fail : MRes
  | bad : MRes
  deriving DecidableEq

/-- Go `getEsc`: one (possibly escaped) character of a character class.
`none` is `ErrBadPattern`; on success the remaining chunk is never empty. -/
def getEsc : List Char → Option (Char × List Char)
  | [] => none
  | '-' :: _ => none
  | ']' :: _ => none
  | '\\' :: cs =>
    match cs with
    | [] => none
    | d :: ds => if ds.isEmpty then none else some (d, ds)
  | c :: cs => if cs.isEmpty then none else some (c, cs)

/-- The `parse all ranges` loop of Go `matchChunk`'s `[` case.  `r` is the
name character being matched (NUL when the match already failed), `matched`
and `nrange` are the loop state.  Returns the match flag and the chunk after
the closing `]`, or `none` for `ErrBadPattern`.  The fuel exceeds the chunk
length, and each iteration consumes at least one chunk character. -/
def parseRanges : Nat → Char → List Char → Bool → Nat → Option (Bool × List Char)
  | 0, _, _, _, _ => none
  | f + 1, r, chunk, matched, nrange =>
    match chunk with
    | ']' :: rest =>
      if nrange > 0 then some (matched, rest)
      else none
    | _ =>
      match getEsc chunk with
      | none => none
      | some (lo, c1) =>
        match c1 with
        | '-' :: c2 =>
          match getEsc c2 with
          | none => none
          | some (hi, c3) =>
            parseRanges f r c3 (matched || decide (lo ≤ r ∧ r ≤ hi)) (nrange + 1)
        | _ => parseRanges f r c1 (matched || decide (lo ≤ r ∧ r ≤ lo)) (nrange + 1)

/-- The body of Go `matchChunk`: checks whether `chunk` matches a prefix of
`s`, continuing after a failure to diagnose `ErrBadPattern` (the `failed`
flag of the Go code).  Structural on `chunk` except for the class case,
which consumes the class through `parseRanges`; fuel exceeds the chunk
length. -/
def chunkLoop : Nat → List Char → List Char → Bool → MRes
  | 0, _, _, _ => .bad
  | _ + 1, [], s, failed => if failed then .fail else .ok s
  | f + 1, c :: cr, s, failed0 =>
    let failed := failed0 || s.isEmpty
    if c = '[' then
      let r := if failed then Char.ofNat 0 else s.headD (Char.ofNat 0)
      let s1 := if failed then s else s.tail
      let head2 :=
        match cr with
        | '^' :: t => (true, t)
        | _ => (false, cr)
      match parseRanges (head2.2.length + 1) r head2.2 false 0 with
      | none => .bad
      | some (matched, cr2) => chunkLoop f cr2 s1 (failed || (matched == head2.1))
    else if c = '?' then
      match s with
      | [] => chunkLoop f cr s true
      | a :: s1 =>
        if failed then chunkLoop f cr s true
        else chunkLoop f cr s1 (a = '/')
    else if c = '\\' then
      match cr with
      | [] => .bad
      | d :: cr1 =>
        match s with
        | [] => chunkLoop f cr1 s true
        | a :: s1 =>
          if failed then chunkLoop f cr1 s true
          else chunkLoop f cr1 s1 (d ≠ a)
    else
      match s with
      | [] => chunkLoop f cr s true
      | a :: s1 =>
        if failed then chunkLoop f cr s true
        else chunkLoop f cr s1 (c ≠ a)

/-- Go `matchChunk chunk s`. -/
def matchChunk (chunk s : List Char) : MRes :=
  chunkLoop (chunk.length + 1) chunk s false

/-- The star-consuming head of Go `scanChunk`. -/
def dropStars : List Char → List Char
  | [] => []
  | c :: cs => if c = '*' then dropStars cs else c :: cs

/-- The scanning loop of Go `scanChunk` (after the leading stars), splitting
off the next chunk; `inrange` tracks whether the scanner is inside `[...]`.
On Unix a backslash escapes the next character. -/
def scanBody : Bool → List Char → List Char × List Char
  | _, [] => ([], [])
  | inrange, c :: cs =>
    if c = '\\' then
      match cs with
      | [] => ([c], [])
      | d :: ds =>
        let r := scanBody inrange ds
        (c :: d :: r.1, r.2)
    else if c = '[' then
      let r := scanBody true cs
      (c :: r.1, r.2)
    else if c = ']' then
      let r := scanBody false cs
      (c :: r.1, r.2)
    else if c = '*' then
      if inrange then
        let r := scanBody inrange cs
        (c :: r.1, r.2)
      else ([], c :: cs)
    else
      let r := scanBody inrange cs
      (c :: r.1, r.2)

/-- Go `scanChunk pattern = (star, chunk, rest)`. -/
def scanChunk (pattern : List Char) : Bool × List Char × List Char :=
  let star :=
    match pattern with
    | [] => false
    | c :: _ => c = '*'
  (star, scanBody false (dropStars pattern))

/-- The final loop of Go `Match`: before returning `false` with no error,
the remainder of the pattern is checked for syntax errors by matching each
chunk against the empty string.  `false` means `ErrBadPattern`. -/
def validateLoop : Nat → List Char → Bool
  | 0, _ => false
  | _ + 1, [] => true
  | f + 1, pattern =>
    let sc := scanChunk pattern
    match matchChunk sc.2.1 [] with
    | .bad => false
    | _ => validateLoop f sc.2.2

def validateRest (pattern : List Char) : Bool :=
  validateLoop (pattern.length + 1) pattern

/-- `return false, nil` after validating the remaining pattern. -/
def finalCheck (rest : List Char) : Option Bool :=
  if validateRest rest then some false else none

/-- The star back-off loop of Go `Match` (`Look for match skipping i+1
bytes. Cannot skip /.`); `mprev` continues the outer loop (`continue
Pattern`) on the remaining pattern. -/
def starLoopAux (mprev : List Char → List Char → Option Bool)
    (chunk rest : List Char) : List Char → Option Bool
  | [] => finalCheck rest
  | c :: cs =>
    if c = '/' then finalCheck rest
    else
      match matchChunk chunk cs with
      | .ok t =>
        if rest.isEmpty && !t.isEmpty then starLoopAux mprev chunk rest cs
        else mprev rest t
      | .fail => starLoopAux mprev chunk rest cs
      | .bad => none

/-- The outer `Pattern` loop of Go `Match`.  The fuel strictly exceeds the
pattern length; each `continue` strictly shortens the pattern
(`matchLoop_fuel_high`), so the `0` case is unreachable from `filepathMatch`. -/
def matchLoop : Nat → List Char → List Char → Option Bool
  | 0, _, _ => none
  | f + 1, pattern, name =>
    match pattern with
    | [] => some name.isEmpty
    | _ :: _ =>
      let sc := scanChunk pattern
      if sc.1 && sc.2.1.isEmpty then some (!(name.contains '/'))
      else
        match matchChunk sc.2.1 name with
        | .ok t =>
          if t.isEmpty || !sc.2.2.isEmpty then matchLoop f sc.2.2 t
          else if sc.1 then starLoopAux (matchLoop f) sc.2.1 sc.2.2 name
          else finalCheck sc.2.2
        | .bad => none
        | .fail =>
          if sc.1 then starLoopAux (matchLoop f) sc.2.1 sc.2.2 name
          else finalCheck sc.2.2

/-- Go `filepath.Match pattern name`; `none` is `ErrBadPattern`. -/
def filepathMatch (pattern name : List Char) : Option Bool :=
  matchLoop (pattern.length + 1) pattern name

/-! ## `isLabelProtected` (internal/controller/utils.go) -/

/-- `strings.Contains(pattern, "**")`. -/
def containsDoubleStar : List Char → Bool
  | '*' :: '*' :: _ => true
  | _ :: rest => containsDoubleStar rest
  | [] => false

/-- `strings.ReplaceAll(pattern, "**", "*")` (left-to-right,
non-overlapping). -/
def replaceDoubleStar : List Char → List Char
  | '*' :: '*' :: rest => '*' :: replaceDoubleStar rest
  | c :: rest => c :: replaceDoubleStar rest
  | [] => []

/-- The pattern actually handed to `filepath.Match`: double wildcards are
collapsed first (guarded by the `strings.Contains` check, as in the code). -/
def normPat (p : String) : List Char :=
  if containsDoubleStar p.data then replaceDoubleStar p.data else p.data

/-- `isLabelProtected(labelKey, patterns)`: empty patterns are skipped,
`**` is collapsed, a matcher error (`none`) is skipped, the first match
wins. -/
def isLabelProtected (labelKey : String) : List String → Bool
  | [] => false
  | p :: rest =>
    if p = "" then isLabelProtected labelKey rest
    else
      match filepathMatch (normPat p) labelKey.data with
      | some true => true
      | some false => isLabelProtected labelKey rest
      | none => isLabelProtected labelKey rest

/-! ## Label set algebra (internal/controller/utils.go) -/

/-- The loop of `removeStaleLabels`, iterating over the previously-applied
entries with the running `(current, changed)` state. -/
def removeStaleGo (desired : Lmap) : Lmap × Bool → Lmap → Lmap × Bool
  | st, [] => st
  | st, (key, prevVal) :: rest =>
    if lget desired key = none then
      match lget st.1 key with
      | some cur =>
        if cur = prevVal then removeStaleGo desired (ldel st.1 key, true) rest
        else removeStaleGo desired st rest
      | none => removeStaleGo desired st rest
    else removeStaleGo desired st rest

/-- `removeStaleLabels(current, desired, prevApplied) bool` (the mutated map
is returned alongside the `changed` flag). -/
def removeStaleLabels (current desired prevApplied : Lmap) : Lmap × Bool :=
  removeStaleGo desired (current, false) prevApplied

/-- The loop of `applyDesiredLabels`.  Go's `current[key] != val` reads the
zero value `""` for a missing key, hence the `getD ""`. -/
def applyDesiredGo : Lmap × Bool → Lmap → Lmap × Bool
  | st, [] => st
  | st, (key, val) :: rest =>
    if (lget st.1 key).getD "" ≠ val then applyDesiredGo (lset st.1 key val, true) rest
    else applyDesiredGo st rest

/-- `applyDesiredLabels(current, desired) bool`. -/
def applyDesiredLabels (current desired : Lmap) : Lmap × Bool :=
  applyDesiredGo (current, false) desired

/-- `applyLabelsToNamespace(ns, desired, prevApplied)`: remove stale labels,
then apply desired ones; `changed` is the disjunction (in the code,
`changed = applyDesiredLabels(...) || changed`). -/
def applyLabelsToNamespace (nsLabels desired prevApplied : Lmap) : Lmap × Bool :=
  let r := removeStaleLabels nsLabels desired prevApplied
  let a := applyDesiredLabels r.1 desired
  (a.1, a.2 || r.2)

/-! ## Protection filter (internal/controller/namespacelabel_controller.go) -/

structure ProtectionConfig where
  patterns : List String
  mode : String
  deriving DecidableEq

/-- The fail-mode error message of `filterProtectedLabels`. -/
def protectionErrMsg (key existingValue value : String) : String :=
  "protected label '" ++ key ++ "' cannot be modified (existing: '" ++
    existingValue ++ "', attempted: '" ++ value ++ "')"

/-- `filterProtectedLabels(desired, existing, config)`; Go returns
`(nil, nil, err)` in fail mode, modelled as `.error` carrying the message. -/
def filterProtectedLabels : Lmap → Lmap → ProtectionConfig → Except String (Lmap × List String)
  | [], _, _ => .ok ([], [])
  | (key, value) :: rest, existing, config =>
    if isLabelProtected key config.patterns then
      match lget existing key with
      | some existingValue =>
        if existingValue ≠ value then
          if config.mode = "fail" then
            .error (protectionErrMsg key existingValue value)
          else
            (filterProtectedLabels rest existing config).map fun r => (r.1, key :: r.2)
        else
          (filterProtectedLabels rest existing config).map fun r => ((key, value) :: r.1, r.2)
      | none =>
        (filterProtectedLabels rest existing config).map fun r => ((key, value) :: r.1, r.2)
    else
      (filterProtectedLabels rest existing config).map fun r => ((key, value) :: r.1, r.2)

/-- The conflict test of `filterProtectedLabels` for one desired pair: the
key is protected and exists live with a different value. -/
def conflictB (existing : Lmap) (patterns : List String) (key value : String) : Bool :=
  isLabelProtected key patterns &&
    match lget existing key with
    | some existingValue => existingValue ≠ value
    | none => false

/-! ## Protection configuration loading
(`getProtectionConfig`, internal/controller/namespacelabel_controller.go) -/

/-- `unicode.IsSpace` restricted to the ASCII space characters trimmed by
`strings.TrimSpace` on the operator's inputs. -/
def isSpaceChar (c : Char) : Bool :=
  c = ' ' || c = '\t' || c = '\n' || c = '\x0b' || c = '\x0c' || c = '\r'

def trimSpaceL (l : List Char) : List Char :=
  ((l.dropWhile isSpaceChar).reverse.dropWhile isSpaceChar).reverse

def isQuoteChar (c : Char) : Bool := c = '"' || c = '\''

/-- `strings.Trim(line, "\"'")`. -/
def trimQuotes (l : List Char) : List Char :=
  ((l.dropWhile isQuoteChar).reverse.dropWhile isQuoteChar).reverse

/-- One iteration of the `patterns` parsing loop of `getProtectionConfig`:
trim, drop blank and `#`-prefixed lines, strip inline comments, strip a
`- ` YAML list prefix, trim quotes, keep non-empty results. -/
def processPatternLine (raw : List Char) : Option String :=
  let line := trimSpaceL raw
  if line.isEmpty then none
  else
    match line with
    | '#' :: _ => none
    | _ =>
      let line :=
        if line.contains '#' then trimSpaceL (line.takeWhile fun c => c ≠ '#')
        else line
      let line :=
        match line with
        | '-' :: ' ' :: restLine => trimSpaceL restLine
        | _ => line
      let line := trimQuotes line
      if line.isEmpty then none else some (String.mk line)

/-- The `patterns` key parsing of `getProtectionConfig`
(`strings.Split(patternsData, "\n")` then the per-line loop). -/
def parseProtectionPatterns (patternsData : String) : List String :=
  (patternsData.data.splitOn '\n').filterMap processPatternLine

/-- `getProtectionConfig`: `none` models `IsNotFound` (ConfigMap absent),
`some data` the ConfigMap's `Data` map.  The content path has no error
branch in the code (only non-NotFound store I/O errors propagate, which are
outside the model), so the embedding is a total function. -/
def getProtectionConfig (cm : Option Lmap) : ProtectionConfig :=
  match cm with
  | none => { patterns := [], mode := "skip" }
  | some data =>
    let patterns :=
      match lget data "patterns" with
      | some patternsData => parseProtectionPatterns patternsData
      | none => []
    let mode :=
      match lget data "mode" with
      | some m => String.mk (trimSpaceL m.data)
      | none => "skip"
    { patterns := patterns, mode := mode }

/-! ## Status reporter (`updateStatus`, internal/controller/utils.go) -/

structure Condition where
  condType : String
  status : Bool
  reason : String
  message : String
  observedGeneration : Nat
  deriving DecidableEq

structure CRStatus where
  applied : Bool
  labelsApplied : List String
  conditions : List Condition
  deriving DecidableEq

/-- The upsert loop of `updateStatus`: replace the first `Ready` condition,
else append. -/
def upsertReady (cond : Condition) : List Condition → List Condition
  | [] => [cond]
  | c :: rest =>
    if c.condType = "Ready" then cond :: rest else c :: upsertReady cond rest

/-- `updateStatus(cr, ok, reason, msg, labelsApplied)`; the condition status
mirrors `ok` and `LastTransitionTime` is outside the model. -/
def updateStatus (st : CRStatus) (gen : Nat) (ok : Bool) (reason msg : String)
    (labelsApplied : List String) : CRStatus :=
  { applied := ok
    labelsApplied := labelsApplied
    conditions := upsertReady
      { condType := "Ready", status := ok, reason := reason, message := msg,
        observedGeneration := gen } st.conditions }

def findCondition (t : String) : List Condition → Option Condition
  | [] => none
  | c :: rest => if c.condType = t then some c else findCondition t rest

/-! ## The Active reconcile pass (`Reconcile`, lines 60-137) -/

/-- Outcome of one Active pass. -/
structure PassResult where
  /-- the namespace's labels after the pass -/
  nsLabels : Lmap
  /-- the applied-labels annotation bookkeeping after the pass -/
  appliedAnno : Lmap
  /-- whether `r.Update(ctx, ns)` was attempted (`changed`) -/
  nsWriteAttempted : Bool
  /-- whether `r.Status().Update(ctx, &current)` was attempted -/
  statusWriteAttempted : Bool
  status : CRStatus
  err : Option String
  deriving DecidableEq

/-- The success-path status message of `Reconcile` (`fmt.Sprintf`; `%v` of a
string slice prints `[a b]`). -/
def syncMessage (appliedCount labelCount : Nat) (targetNS : String)
    (skipped : List String) : String :=
  if skipped.length > 0 then
    "Applied " ++ Nat.repr appliedCount ++ " of " ++ Nat.repr labelCount ++
      " labels to namespace '" ++ targetNS ++ "', skipped " ++
      Nat.repr skipped.length ++ " protected labels ([" ++
      String.intercalate " " skipped ++ "])"
  else
    "Applied " ++ Nat.repr appliedCount ++ " labels to namespace '" ++ targetNS ++ "'"

/-- The Active-state body of `Reconcile` for an existing CR: filter the
desired labels; on a protection error persist a failing status and return
the error without touching the namespace; otherwise apply the allowed
labels, write the namespace if changed, store the allowed map as the new
annotation bookkeeping, and persist a success status. -/
def reconcileActive (desired nsLabels prevApplied : Lmap) (config : ProtectionConfig)
    (st : CRStatus) (gen : Nat) (targetNS : String) : PassResult :=
  match filterProtectedLabels desired nsLabels config with
  | .error e =>
    { nsLabels := nsLabels
      appliedAnno := prevApplied
      nsWriteAttempted := false
      statusWriteAttempted := true
      status := updateStatus st gen false "ProtectionError" e []
      err := some e }
  | .ok (allowedLabels, skippedLabels) =>
    let ar := applyLabelsToNamespace nsLabels allowedLabels prevApplied
    { nsLabels := ar.1
      appliedAnno := allowedLabels
      nsWriteAttempted := ar.2
      statusWriteAttempted := true
      status := updateStatus st gen true "Synced"
        (syncMessage allowedLabels.length desired.length targetNS skippedLabels)
        (lkeys allowedLabels)
      err := none }

/-- Two consecutive Active passes with no intervening external change: the
second pass reads the namespace labels, annotation bookkeeping and CR status
produced by the first. -/
def reconcileTwice (desired nsLabels prevApplied : Lmap) (config : ProtectionConfig)
    (st : CRStatus) (gen : Nat) (targetNS : String) : PassResult × PassResult :=
  let p1 := reconcileActive desired nsLabels prevApplied config st gen targetNS
  let p2 := reconcileActive desired p1.nsLabels p1.appliedAnno config p1.status gen targetNS
  (p1, p2)

/-! ## Drift detector -/

/-- Modelled from the spec: the repository's `detectDrift` implementation is
not under src/ — only its unit tests
(internal/controller/namespacelabel_controller_test.go) call
`reconciler.detectDrift(currentLabels, prevApplied, desired)`.  Modelled
from the spec sentence "For every key in prevApplied that is still in
desired, if the live value is missing or differs from the previously-applied
value, drift is declared." -/
def detectDrift (liveLabels prevApplied desired : Lmap) : Bool :=
  prevApplied.any fun kv =>
    (lget desired kv.1).isSome &&
      match lget liveLabels kv.1 with
      | none => true
      | some live => live ≠ kv.2

/-! ## Lemmas: label maps -/

theorem lget_cons (a : String × String) (m : Lmap) (k : String) :
    lget (a :: m) k = if a.1 = k then some a.2 else lget m k := rfl

theorem lget_lset (m : Lmap) (k v j : String) :
    lget (lset m k v) j = if k = j then some v else lget m j := by
  induction m with
  | nil => simp [lset, lget]
  | cons a rest ih =>
    obtain ⟨a1, a2⟩ := a
    by_cases hak : a1 = k
    · subst hak
      by_cases hj : a1 = j <;> simp [lset, lget, hj]
    · by_cases hj : a1 = j
      · subst hj
        have hne : ¬ k = a1 := fun h => hak h.symm
        simp [lset, lget, hak, hne]
      · simp [lset, lget, hak, hj, ih]

theorem lget_ldel (m : Lmap) (k j : String) :
    lget (ldel m k) j = if j = k then none else lget m j := by
  induction m with
  | nil => simp [ldel, lget]
  | cons a rest ih =>
    obtain ⟨a1, a2⟩ := a
    rw [ldel]
    by_cases hak : a1 = k
    · rw [if_pos hak, ih]
      by_cases hj : j = k
      · simp [hj]
      · have hne : ¬ a1 = j := by
          rw [hak]; exact fun h => hj h.symm
        simp [hj, lget_cons, hne]
    · rw [if_neg hak]
      by_cases h1 : a1 = j
      · subst h1
        simp [lget_cons, hak]
      · simp [lget_cons, h1, ih]

theorem lget_eq_none_iff (m : Lmap) (k : String) :
    lget m k = none ↔ k ∉ lkeys m := by
  induction m with
  | nil => simp [lget, lkeys]
  | cons a rest ih =>
    obtain ⟨a1, a2⟩ := a
    by_cases h : a1 = k
    · subst h
      simp [lget_cons, lkeys]
    · have h' : ¬ k = a1 := fun he => h he.symm
      simp [lget_cons, lkeys, h, h', ih]

theorem mem_of_lget_eq_some {m : Lmap} {k v : String} (h : lget m k = some v) :
    (k, v) ∈ m := by
  induction m with
  | nil => simp [lget] at h
  | cons a rest ih =>
    obtain ⟨a1, a2⟩ := a
    by_cases hk : a1 = k
    · subst hk
      rw [lget_cons] at h
      simp at h
      subst h
      exact List.mem_cons_self _ _
    · rw [lget_cons] at h
      simp [hk] at h
      exact List.mem_cons_of_mem _ (ih h)

theorem keys_nodup_cons {a : String × String} {m : Lmap} (h : NodupKeys (a :: m)) :
    a.1 ∉ lkeys m ∧ NodupKeys m := by
  simpa [NodupKeys, lkeys] using h

theorem lget_eq_some_of_mem {m : Lmap} {k v : String}
    (hm : NodupKeys m) (h : (k, v) ∈ m) : lget m k = some v := by
  induction m with
  | nil => simp at h
  | cons a rest ih =>
    obtain ⟨a1, a2⟩ := a
    obtain ⟨hka, hrest⟩ := keys_nodup_cons hm
    rcases List.mem_cons.1 h with h1 | h1
    · rw [Prod.ext_iff] at h1
      obtain ⟨hk, hv⟩ := h1
      dsimp at hk hv
      subst hk; subst hv
      simp [lget_cons]
    · have hk : ¬ a1 = k := by
        intro he
        subst he
        exact hka (List.mem_map.2 ⟨(a1, v), h1, rfl⟩)
      rw [lget_cons]
      simp only [if_neg hk]
      exact ih hrest h1

/-! ## Lemmas: label set algebra -/

theorem removeStaleGo_cons (desired : Lmap) (st : Lmap × Bool) (key prevVal : String)
    (rest : Lmap) :
    removeStaleGo desired st ((key, prevVal) :: rest) =
      if lget desired key = none ∧ lget st.1 key = some prevVal
      then removeStaleGo desired (ldel st.1 key, true) rest
      else removeStaleGo desired st rest := by
  rw [removeStaleGo]
  by_cases hd : lget desired key = none
  · rw [if_pos hd]
    cases hc : lget st.1 key with
    | none => simp [hd, hc]
    | some c =>
      by_cases hcv : c = prevVal
      · subst hcv
        simp [hd]
      · simp [hd, hcv]
  · rw [if_neg hd]
    simp [hd]

theorem removeStaleGo_fst (desired : Lmap) (prev : Lmap) :
    ∀ (cur : Lmap) (b : Bool) (k : String), NodupKeys prev →
      lget (removeStaleGo desired (cur, b) prev).1 k =
        if lget desired k = none ∧ lget prev k ≠ none ∧ lget prev k = lget cur k
        then none else lget cur k := by
  induction prev with
  | nil =>
    intro cur b k _
    simp [removeStaleGo, lget]
  | cons a rest ih =>
    intro cur b k hnd
    obtain ⟨key, prevVal⟩ := a
    obtain ⟨hka, hrest⟩ := keys_nodup_cons hnd
    have hgrest : lget rest key = none := (lget_eq_none_iff rest key).2 hka
    rw [removeStaleGo_cons]
    by_cases hstep : lget desired key = none ∧ lget cur key = some prevVal
    · rw [if_pos hstep]
      have hih := ih (ldel cur key) true k hrest
      rw [hih]
      by_cases hkk : k = key
      · subst hkk
        have hLcond : ¬ (lget desired k = none ∧ lget rest k ≠ none ∧
            lget rest k = lget (ldel cur k) k) := fun hcontra => hcontra.2.1 hgrest
        rw [if_neg hLcond, lget_ldel, if_pos rfl]
        have hRcond : lget desired k = none ∧ lget ((k, prevVal) :: rest) k ≠ none ∧
            lget ((k, prevVal) :: rest) k = lget cur k := by
          refine ⟨hstep.1, ?_, ?_⟩ <;> simp [lget_cons, hstep.2]
        rw [if_pos hRcond]
      · have hkey : ¬ key = k := fun h => hkk h.symm
        simp [lget_ldel, lget_cons, hkk, hkey]
    · rw [if_neg hstep]
      have hih := ih cur b k hrest
      rw [hih]
      by_cases hkk : k = key
      · subst hkk
        have hLcond : ¬ (lget desired k = none ∧ lget rest k ≠ none ∧
            lget rest k = lget cur k) := fun hcontra => hcontra.2.1 hgrest
        rw [if_neg hLcond]
        have hRcond : ¬ (lget desired k = none ∧ lget ((k, prevVal) :: rest) k ≠ none ∧
            lget ((k, prevVal) :: rest) k = lget cur k) := by
          intro hcontra
          apply hstep
          refine ⟨hcontra.1, ?_⟩
          have h2 := hcontra.2.2
          rw [lget_cons] at h2
          simp at h2
          exact h2.symm
        rw [if_neg hRcond]
      · have hkey : ¬ key = k := fun h => hkk h.symm
        simp [lget_cons, hkey]

theorem removeStaleGo_noop (desired : Lmap) (prev : Lmap)
    (h : ∀ kv ∈ prev, lget desired kv.1 ≠ none) :
    ∀ st, removeStaleGo desired st prev = st := by
  induction prev with
  | nil => intro st; rfl
  | cons a rest ih =>
    intro st
    obtain ⟨key, prevVal⟩ := a
    have hk : lget desired key ≠ none := h (key, prevVal) (List.mem_cons_self _ _)
    rw [removeStaleGo_cons, if_neg (by simp [hk])]
    exact ih (fun kv hkv => h kv (List.mem_cons_of_mem _ hkv)) st

theorem applyDesiredGo_not_mem (d : Lmap) :
    ∀ (st : Lmap × Bool) (j : String), lget d j = none →
      lget (applyDesiredGo st d).1 j = lget st.1 j := by
  induction d with
  | nil => intro st j _; rfl
  | cons a rest ih =>
    intro st j hj
    obtain ⟨key, val⟩ := a
    have hkj : ¬ key = j := by
      intro h
      rw [lget_cons] at hj
      simp [h] at hj
    have hrest : lget rest j = none := by
      rw [lget_cons] at hj
      simpa [hkj] using hj
    rw [applyDesiredGo]
    by_cases hset : (lget st.1 key).getD "" ≠ val
    · rw [if_pos hset, ih _ j hrest]
      simp [lget_lset, hkj]
    · rw [if_neg hset, ih _ j hrest]

theorem applyDesiredGo_sets (d : Lmap) :
    NodupKeys d → ∀ (st : Lmap × Bool), ∀ kv ∈ d,
      (lget (applyDesiredGo st d).1 kv.1).getD "" = kv.2 := by
  induction d with
  | nil => intro _ st kv h; simp at h
  | cons a rest ih =>
    intro hnd st kv hkv
    obtain ⟨key, val⟩ := a
    obtain ⟨hka, hrest⟩ := keys_nodup_cons hnd
    have hgrest : lget rest key = none := (lget_eq_none_iff rest key).2 hka
    rcases List.mem_cons.1 hkv with h1 | h1
    · rw [Prod.ext_iff] at h1
      obtain ⟨hk, hv⟩ := h1
      dsimp at hk hv
      subst hk; subst hv
      rw [applyDesiredGo]
      by_cases hset : (lget st.1 kv.1).getD "" ≠ kv.2
      · rw [if_pos hset, applyDesiredGo_not_mem rest _ kv.1 hgrest]
        simp [lget_lset]
      · rw [if_neg hset, applyDesiredGo_not_mem rest _ kv.1 hgrest]
        simpa using hset
    · rw [applyDesiredGo]
      by_cases hset : (lget st.1 key).getD "" ≠ val
      · rw [if_pos hset]; exact ih hrest _ kv h1
      · rw [if_neg hset]; exact ih hrest _ kv h1

theorem applyDesiredGo_changed (d : Lmap) :
    ∀ (cur : Lmap) (b : Bool),
      (applyDesiredGo (cur, b) d).2 =
        (b || d.any fun kv => (lget cur kv.1).getD "" != kv.2) := by
  induction d with
  | nil => intro cur b; simp [applyDesiredGo]
  | cons a rest ih =>
    intro cur b
    obtain ⟨key, val⟩ := a
    rw [applyDesiredGo]
    by_cases hset : (lget cur key).getD "" ≠ val
    · rw [if_pos hset]
      have h2 : (applyDesiredGo (lset cur key val, true) rest).2 = true := by
        rw [ih]; simp
      rw [h2]
      simp [List.any_cons, bne_iff_ne, hset]
    · rw [if_neg hset]
      rw [ih]
      push_neg at hset
      simp [List.any_cons, bne_iff_ne, hset]

theorem applyDesiredGo_noop (d : Lmap) :
    ∀ (st : Lmap × Bool), (∀ kv ∈ d, (lget st.1 kv.1).getD "" = kv.2) →
      applyDesiredGo st d = st := by
  induction d with
  | nil => intro st _; rfl
  | cons a rest ih =>
    intro st h
    obtain ⟨key, val⟩ := a
    have hk : (lget st.1 key).getD "" = val := h (key, val) (List.mem_cons_self _ _)
    rw [applyDesiredGo, if_neg (by simp [hk])]
    exact ih st fun kv hkv => h kv (List.mem_cons_of_mem _ hkv)

/-! ## Lemmas: protection filter -/

theorem conflictB_true_iff (existing : Lmap) (patterns : List String) (k v : String) :
    conflictB existing patterns k v = true ↔
      isLabelProtected k patterns = true ∧ ∃ ev, lget existing k = some ev ∧ ev ≠ v := by
  unfold conflictB
  cases hex : lget existing k <;> simp [hex]

/-- When no fail-mode conflict can fire, `filterProtectedLabels` partitions
the desired entries by the conflict test: non-conflicting entries form
`allowed` in order, the keys of conflicting entries form `skipped` in
order. -/
theorem filter_eq_ok (desired existing : Lmap) (config : ProtectionConfig)
    (hsafe : config.mode = "fail" → ∀ kv ∈ desired,
      conflictB existing config.patterns kv.1 kv.2 = false) :
    filterProtectedLabels desired existing config =
      .ok (desired.filter fun kv => !conflictB existing config.patterns kv.1 kv.2,
           (desired.filter fun kv => conflictB existing config.patterns kv.1 kv.2).map
             Prod.fst) := by
  induction desired with
  | nil => rfl
  | cons a rest ih =>
    obtain ⟨key, value⟩ := a
    have hrest : config.mode = "fail" → ∀ kv ∈ rest,
        conflictB existing config.patterns kv.1 kv.2 = false :=
      fun hm kv hkv => hsafe hm kv (List.mem_cons_of_mem _ hkv)
    rw [filterProtectedLabels]
    by_cases hp : isLabelProtected key config.patterns
    · rw [if_pos hp]
      cases hex : lget existing key with
      | some ev =>
        dsimp only
        by_cases hvv : ev ≠ value
        · have hcB : conflictB existing config.patterns key value = true := by
            simp [conflictB, hp, hex, hvv]
          by_cases hm : config.mode = "fail"
          · exact absurd (hsafe hm (key, value) (List.mem_cons_self _ _)) (by simp [hcB])
          · rw [if_pos hvv, if_neg hm, ih hrest]
            simp [Except.map, List.filter_cons, hcB]
        · have hcB : conflictB existing config.patterns key value = false := by
            simp [conflictB, hex]
            push_neg at hvv
            simp [hvv]
          rw [if_neg hvv, ih hrest]
          simp [Except.map, List.filter_cons, hcB]
      | none =>
        have hcB : conflictB existing config.patterns key value = false := by
          simp [conflictB, hex]
        rw [ih hrest]
        simp [Except.map, List.filter_cons, hcB]
    · rw [if_neg hp]
      have hcB : conflictB existing config.patterns key value = false := by
        simp [conflictB, hp]
      rw [ih hrest]
      simp [Except.map, List.filter_cons, hcB]

/-- A successful filter run in fail mode means no conflict was present. -/
theorem filter_ok_inv (desired existing : Lmap) (config : ProtectionConfig) :
    ∀ res : Lmap × List String,
      filterProtectedLabels desired existing config = .ok res →
      config.mode = "fail" →
      ∀ kv ∈ desired, conflictB existing config.patterns kv.1 kv.2 = false := by
  induction desired with
  | nil => intro res _ _ kv hkv; simp at hkv
  | cons a rest ih =>
    intro res h hm kv hkv
    obtain ⟨key, value⟩ := a
    rw [filterProtectedLabels] at h
    by_cases hp : isLabelProtected key config.patterns
    · rw [if_pos hp] at h
      cases hex : lget existing key with
      | some ev =>
        rw [hex] at h
        dsimp only at h
        by_cases hvv : ev ≠ value
        · rw [if_pos hvv, if_pos hm] at h
          exact absurd h (by simp)
        · rw [if_neg hvv] at h
          push_neg at hvv
          rcases List.mem_cons.1 hkv with h1 | h1
          · subst h1
            simp [conflictB, hex, hvv]
          · cases hrec : filterProtectedLabels rest existing config with
            | error e => rw [hrec] at h; exact absurd h (by simp [Except.map])
            | ok r => exact ih r hrec hm kv h1
      | none =>
        rw [hex] at h
        rcases List.mem_cons.1 hkv with h1 | h1
        · subst h1
          simp [conflictB, hex]
        · cases hrec : filterProtectedLabels rest existing config with
          | error e => rw [hrec] at h; exact absurd h (by simp [Except.map])
          | ok r => exact ih r hrec hm kv h1
    · rw [if_neg hp] at h
      rcases List.mem_cons.1 hkv with h1 | h1
      · subst h1
        simp [conflictB, hp]
      · cases hrec : filterProtectedLabels rest existing config with
        | error e => rw [hrec] at h; exact absurd h (by simp [Except.map])
        | ok r => exact ih r hrec hm kv h1

/-- In fail mode a present conflict makes the filter return the
`protectionErrMsg` error for the first conflicting desired entry. -/
theorem filter_fail (desired existing : Lmap) (config : ProtectionConfig)
    (hm : config.mode = "fail")
    (hconf : ∃ kv ∈ desired, conflictB existing config.patterns kv.1 kv.2 = true) :
    ∃ k ev av, (k, av) ∈ desired ∧ isLabelProtected k config.patterns = true ∧
      lget existing k = some ev ∧ ev ≠ av ∧
      filterProtectedLabels desired existing config = .error (protectionErrMsg k ev av) := by
  induction desired with
  | nil =>
    obtain ⟨kv, hkv, _⟩ := hconf
    simp at hkv
  | cons a rest ih =>
    obtain ⟨key, value⟩ := a
    by_cases hcB : conflictB existing config.patterns key value = true
    · obtain ⟨hp, ev, hex, hne⟩ := (conflictB_true_iff existing config.patterns key value).1 hcB
      refine ⟨key, ev, value, List.mem_cons_self _ _, hp, hex, hne, ?_⟩
      rw [filterProtectedLabels, if_pos hp, hex]
      dsimp only
      rw [if_pos hne, if_pos hm]
    · have hrestconf : ∃ kv ∈ rest, conflictB existing config.patterns kv.1 kv.2 = true := by
        obtain ⟨kv, hkv, hc⟩ := hconf
        rcases List.mem_cons.1 hkv with h1 | h1
        · subst h1
          exact absurd hc hcB
        · exact ⟨kv, h1, hc⟩
      obtain ⟨k, ev, av, hmem, hp, hex, hne, heq⟩ := ih hrestconf
      refine ⟨k, ev, av, List.mem_cons_of_mem _ hmem, hp, hex, hne, ?_⟩
      rw [filterProtectedLabels]
      by_cases hp0 : isLabelProtected key config.patterns
      · rw [if_pos hp0]
        cases hex0 : lget existing key with
        | some ev0 =>
          dsimp only
          by_cases hvv : ev0 ≠ value
          · exact absurd ((conflictB_true_iff existing config.patterns key value).2
              ⟨hp0, ev0, hex0, hvv⟩) hcB
          · rw [if_neg hvv, heq]
            simp [Except.map]
        | none =>
          rw [heq]
          simp [Except.map]
      · rw [if_neg hp0, heq]
        simp [Except.map]

theorem nodupKeys_filter (m : Lmap) (p : String × String → Bool) (h : NodupKeys m) :
    NodupKeys (m.filter p) :=
  ((List.filter_sublist m).map Prod.fst).nodup h

theorem nodup_values_eq {m : Lmap} {k v w : String} (h : NodupKeys m)
    (h1 : (k, v) ∈ m) (h2 : (k, w) ∈ m) : v = w := by
  have e1 := lget_eq_some_of_mem h h1
  have e2 := lget_eq_some_of_mem h h2
  rw [e1] at e2
  exact Option.some.inj e2

theorem findCondition_upsertReady (cond : Condition) (hc : cond.condType = "Ready") :
    ∀ conds, findCondition "Ready" (upsertReady cond conds) = some cond := by
  intro conds
  induction conds with
  | nil => simp [upsertReady, findCondition, hc]
  | cons c rest ih =>
    rw [upsertReady]
    by_cases h : c.condType = "Ready"
    · rw [if_pos h, findCondition, if_pos hc]
    · rw [if_neg h, findCondition, if_neg h, ih]

/-! ## Claim theorems -/

/-- C2: `removeStaleLabels` deletes a key `k` from `current` exactly when
`k` is recorded in `prevApplied`, `k` is no longer in `desired`, and the
live value `current[k]` still equals the previously-applied value; a key
whose live value differs from the recorded value is never deleted, and every
other entry of `current` is left unchanged. -/
theorem removeStaleLabels_only_deletes_owned (current desired prevApplied : Lmap)
    (hnd : NodupKeys prevApplied) (k : String) :
    lget (removeStaleLabels current desired prevApplied).1 k =
      if lget desired k = none ∧ lget prevApplied k ≠ none ∧
          lget prevApplied k = lget current k
      then none else lget current k :=
  removeStaleGo_fst desired prevApplied current false k hnd

theorem removeStaleLabels_only_deletes_owned_witness :
    lget (removeStaleLabels [("a", "1"), ("x", "9")] [] [("a", "1"), ("b", "2")]).1 "a" =
      if lget [] "a" = none ∧ lget [("a", "1"), ("b", "2")] "a" ≠ none ∧
          lget [("a", "1"), ("b", "2")] "a" = lget [("a", "1"), ("x", "9")] "a"
      then none else lget [("a", "1"), ("x", "9")] "a" :=
  removeStaleLabels_only_deletes_owned [("a", "1"), ("x", "9")] []
    [("a", "1"), ("b", "2")] (by decide) "a"

/-- C6 counterexample: with `desired = {a: ""}` and `a` absent from
`current`, Go's `current[key] != val` reads the zero value `""`, so the key
is **not** set — after the call `a` is still absent (the claim requires it
to be present with the desired value) and no mutation is reported. -/
theorem applyDesiredLabels_absent_empty_not_set :
    (applyDesiredLabels [] [("a", "")]).1 = [] ∧
      (applyDesiredLabels [] [("a", "")]).2 = false := by
  constructor <;> rfl

/-- C6 amended: `applyDesiredLabels` treats an absent key as holding the
empty string: it sets `current[k]` to `desired[k]` for every key of
`desired` whose value in `current` — reading `""` when absent — differs
from the desired value; afterwards every desired pair holds under that same
reading (so a key desired with the empty value and absent from `current`
stays absent), all non-desired keys are unchanged, and `true` is returned
iff at least one such set occurred. -/
theorem applyDesiredLabels_spec (current desired : Lmap) (hnd : NodupKeys desired) :
    (∀ kv ∈ desired, (lget (applyDesiredLabels current desired).1 kv.1).getD "" = kv.2) ∧
    (∀ j, lget desired j = none →
      lget (applyDesiredLabels current desired).1 j = lget current j) ∧
    ((applyDesiredLabels current desired).2 = true ↔
      ∃ kv ∈ desired, (lget current kv.1).getD "" ≠ kv.2) := by
  refine ⟨fun kv hkv => applyDesiredGo_sets desired hnd _ kv hkv,
    fun j hj => applyDesiredGo_not_mem desired _ j hj, ?_⟩
  rw [applyDesiredLabels, applyDesiredGo_changed]
  simp [List.any_eq_true, bne_iff_ne]

theorem applyDesiredLabels_spec_witness :
    (applyDesiredLabels [("a", "x")] [("a", "y"), ("b", "")]).2 = true :=
  (applyDesiredLabels_spec [("a", "x")] [("a", "y"), ("b", "")] (by decide)).2.2.mpr
    ⟨("a", "y"), by decide, by decide⟩

/-- C4: in skip mode, every desired pair whose key is protected and exists
live with a different value is appended to `skipped` and excluded from
`allowed`, no error is returned, and every other desired pair (not
protected, or protected but absent live, or protected with the same live
value) ends up in `allowed` and not in `skipped`. -/
theorem filterProtectedLabels_skip_classifies (desired existing : Lmap)
    (config : ProtectionConfig) (hmode : config.mode = "skip") (hnd : NodupKeys desired) :
    ∃ allowed skipped,
      filterProtectedLabels desired existing config = .ok (allowed, skipped) ∧
      ∀ k v, (k, v) ∈ desired →
        (conflictB existing config.patterns k v = true →
          k ∈ skipped ∧ lget allowed k = none) ∧
        (conflictB existing config.patterns k v = false →
          lget allowed k = some v ∧ k ∉ skipped) := by
  have hnf : config.mode ≠ "fail" := by rw [hmode]; decide
  refine ⟨_, _, filter_eq_ok desired existing config (fun hm => absurd hm hnf), ?_⟩
  intro k v hkv
  constructor
  · intro hc
    refine ⟨List.mem_map.2 ⟨(k, v), List.mem_filter.2 ⟨hkv, hc⟩, rfl⟩, ?_⟩
    rw [lget_eq_none_iff]
    intro hk
    rcases List.mem_map.1 hk with ⟨kv', hkv', hfst⟩
    obtain ⟨hmem', hpass⟩ := List.mem_filter.1 hkv'
    have hv : kv'.2 = v := by
      apply nodup_values_eq hnd _ hkv
      rw [← hfst]
      exact hmem'
    rw [hfst, hv] at hpass  -- hpass now contradicts hc
    simp [hc] at hpass
  · intro hc
    constructor
    · exact lget_eq_some_of_mem
        (nodupKeys_filter desired _ hnd)
        (List.mem_filter.2 ⟨hkv, by simp [hc]⟩)
    · intro hk
      rcases List.mem_map.1 hk with ⟨kv', hkv', hfst⟩
      obtain ⟨hmem', hpass⟩ := List.mem_filter.1 hkv'
      have hv : kv'.2 = v := by
        apply nodup_values_eq hnd _ hkv
        rw [← hfst]
        exact hmem'
      rw [hfst, hv] at hpass
      simp [hc] at hpass

theorem filterProtectedLabels_skip_classifies_witness :
    ∃ allowed skipped,
      filterProtectedLabels [("env", "prod"), ("kubernetes.io/managed-by", "operator")]
          [("kubernetes.io/managed-by", "system")]
          { patterns := ["kubernetes.io/*"], mode := "skip" } = .ok (allowed, skipped) ∧
      "kubernetes.io/managed-by" ∈ skipped ∧
      lget allowed "kubernetes.io/managed-by" = none ∧
      lget allowed "env" = some "prod" ∧ "env" ∉ skipped := by
  obtain ⟨allowed, skipped, heq, hcls⟩ :=
    filterProtectedLabels_skip_classifies
      [("env", "prod"), ("kubernetes.io/managed-by", "operator")]
      [("kubernetes.io/managed-by", "system")]
      { patterns := ["kubernetes.io/*"], mode := "skip" } rfl (by decide)
  have h1 := (hcls "kubernetes.io/managed-by" "operator" (by decide)).1 (by decide)
  have h2 := (hcls "env" "prod" (by decide)).2 (by decide)
  exact ⟨allowed, skipped, heq, h1.1, h1.2, h2.1, h2.2⟩

/-- C1: in fail mode, if some desired key is protected and present live
with a different value, `filterProtectedLabels` returns an error naming the
key, the existing value and the attempted value and no allowed map, the
Active pass leaves the namespace labels (and the applied bookkeeping)
unchanged and attempts no namespace write, and the persisted status carries
`applied = false` with a failing `Ready` condition whose reason is
`"ProtectionError"`. -/
theorem reconcile_fail_mode_aborts (desired nsLabels prevApplied : Lmap)
    (config : ProtectionConfig) (st : CRStatus) (gen : Nat) (targetNS : String)
    (hmode : config.mode = "fail")
    (hconf : ∃ kv ∈ desired, conflictB nsLabels config.patterns kv.1 kv.2 = true) :
    ∃ k ev av,
      (k, av) ∈ desired ∧ isLabelProtected k config.patterns = true ∧
      lget nsLabels k = some ev ∧ ev ≠ av ∧
      filterProtectedLabels desired nsLabels config = .error (protectionErrMsg k ev av) ∧
      reconcileActive desired nsLabels prevApplied config st gen targetNS =
        { nsLabels := nsLabels
          appliedAnno := prevApplied
          nsWriteAttempted := false
          statusWriteAttempted := true
          status := updateStatus st gen false "ProtectionError" (protectionErrMsg k ev av) []
          err := some (protectionErrMsg k ev av) } ∧
      findCondition "Ready"
          (reconcileActive desired nsLabels prevApplied config st gen targetNS).status.conditions =
        some { condType := "Ready", status := false, reason := "ProtectionError",
               message := protectionErrMsg k ev av, observedGeneration := gen } := by
  obtain ⟨k, ev, av, hmem, hp, hex, hne, heq⟩ := filter_fail desired nsLabels config hmode hconf
  have hrec : reconcileActive desired nsLabels prevApplied config st gen targetNS =
      { nsLabels := nsLabels
        appliedAnno := prevApplied
        nsWriteAttempted := false
        statusWriteAttempted := true
        status := updateStatus st gen false "ProtectionError" (protectionErrMsg k ev av) []
        err := some (protectionErrMsg k ev av) } := by
    rw [reconcileActive, heq]
  refine ⟨k, ev, av, hmem, hp, hex, hne, heq, hrec, ?_⟩
  rw [hrec]
  exact findCondition_upsertReady _ rfl st.conditions

theorem reconcile_fail_mode_aborts_witness :
    ∃ k ev av,
      filterProtectedLabels [("kubernetes.io/managed-by", "operator")]
          [("kubernetes.io/managed-by", "system")]
          { patterns := ["kubernetes.io/*"], mode := "fail" } =
        .error (protectionErrMsg k ev av) ∧
      (reconcileActive [("kubernetes.io/managed-by", "operator")]
          [("kubernetes.io/managed-by", "system")] [("team", "a")]
          { patterns := ["kubernetes.io/*"], mode := "fail" }
          { applied := true, labelsApplied := [], conditions := [] } 4 "tenant").nsLabels =
        [("kubernetes.io/managed-by", "system")] ∧
      (reconcileActive [("kubernetes.io/managed-by", "operator")]
          [("kubernetes.io/managed-by", "system")] [("team", "a")]
          { patterns := ["kubernetes.io/*"], mode := "fail" }
          { applied := true, labelsApplied := [], conditions := [] } 4 "tenant").nsWriteAttempted =
        false ∧
      findCondition "Ready"
          (reconcileActive [("kubernetes.io/managed-by", "operator")]
            [("kubernetes.io/managed-by", "system")] [("team", "a")]
            { patterns := ["kubernetes.io/*"], mode := "fail" }
            { applied := true, labelsApplied := [], conditions := [] } 4
            "tenant").status.conditions =
        some { condType := "Ready", status := false, reason := "ProtectionError",
               message := protectionErrMsg k ev av, observedGeneration := 4 } := by
  obtain ⟨k, ev, av, _, _, _, _, hfil, hrec, hcond⟩ :=
    reconcile_fail_mode_aborts [("kubernetes.io/managed-by", "operator")]
      [("kubernetes.io/managed-by", "system")] [("team", "a")]
      { patterns := ["kubernetes.io/*"], mode := "fail" }
      { applied := true, labelsApplied := [], conditions := [] } 4 "tenant" rfl
      ⟨("kubernetes.io/managed-by", "operator"), by decide, by decide⟩
  exact ⟨k, ev, av, hfil, by rw [hrec], by rw [hrec], hcond⟩

/-! ## Lemmas: the second Active pass -/

theorem conflictB_congr {e1 e2 : Lmap} (pats : List String) (k v : String)
    (h : lget e1 k = lget e2 k) : conflictB e1 pats k v = conflictB e2 pats k v := by
  unfold conflictB
  rw [h]

theorem lget_filter_not_conflict_none (desired existing : Lmap) (pats : List String)
    {k v : String} (hnd : NodupKeys desired) (hkv : (k, v) ∈ desired)
    (hc : conflictB existing pats k v = true) :
    lget (desired.filter fun kv => !conflictB existing pats kv.1 kv.2) k = none := by
  rw [lget_eq_none_iff]
  intro hk
  rcases List.mem_map.1 hk with ⟨kv', hkv', hfst⟩
  obtain ⟨hmem', hpass⟩ := List.mem_filter.1 hkv'
  have hv : kv'.2 = v := by
    apply nodup_values_eq hnd _ hkv
    rw [← hfst]
    exact hmem'
  rw [hfst, hv] at hpass
  simp [hc] at hpass

theorem mem_skipped_conflict (desired existing : Lmap) (pats : List String)
    {k : String} (hk : k ∈ (desired.filter fun kv =>
      conflictB existing pats kv.1 kv.2).map Prod.fst) :
    ∃ v, (k, v) ∈ desired ∧ conflictB existing pats k v = true := by
  rcases List.mem_map.1 hk with ⟨kv', hkv', hfst⟩
  obtain ⟨hmem', hpass⟩ := List.mem_filter.1 hkv'
  refine ⟨kv'.2, ?_, ?_⟩
  · rw [← hfst]
    exact hmem'
  · rw [← hfst]
    exact hpass

/-- After a successful filter pass and the label-algebra application, the
live value of every first-pass-skipped key is untouched (provided the
skipped key was not recorded in `prevApplied` at its live value), and every
allowed pair reads back (under the Go zero-value convention).  Consequently
the filter classifies identically on the updated labels and a second
application is a no-op. -/
theorem activePass_stable (desired nsLabels prevApplied : Lmap) (config : ProtectionConfig)
    (allowed : Lmap) (skipped : List String)
    (hnd : NodupKeys desired) (hndp : NodupKeys prevApplied)
    (hfil : filterProtectedLabels desired nsLabels config = .ok (allowed, skipped))
    (hskip : ∀ k ∈ skipped, ∀ v, lget prevApplied k = some v → lget nsLabels k ≠ some v) :
    filterProtectedLabels desired
        (applyLabelsToNamespace nsLabels allowed prevApplied).1 config =
      .ok (allowed, skipped) ∧
    applyLabelsToNamespace (applyLabelsToNamespace nsLabels allowed prevApplied).1
        allowed allowed =
      ((applyLabelsToNamespace nsLabels allowed prevApplied).1, false) := by
  -- name the partition produced by the first filter pass
  have hsafe := filter_ok_inv desired nsLabels config (allowed, skipped) hfil
  have heq := filter_eq_ok desired nsLabels config hsafe
  rw [hfil] at heq
  have hpair := Except.ok.inj heq
  have hA : allowed = desired.filter fun kv => !conflictB nsLabels config.patterns kv.1 kv.2 :=
    congrArg Prod.fst hpair
  have hS : skipped = (desired.filter fun kv =>
      conflictB nsLabels config.patterns kv.1 kv.2).map Prod.fst :=
    congrArg Prod.snd hpair
  have hndA : NodupKeys allowed := by
    rw [hA]; exact nodupKeys_filter desired _ hnd
  set live1 := (applyLabelsToNamespace nsLabels allowed prevApplied).1 with hlive1def
  have hlive1 : live1 =
      (applyDesiredLabels (removeStaleLabels nsLabels allowed prevApplied).1 allowed).1 := rfl
  -- allowed pairs read back on live1
  have hreads : ∀ kv ∈ allowed, (lget live1 kv.1).getD "" = kv.2 := by
    intro kv hkv
    rw [hlive1]
    exact applyDesiredGo_sets allowed hndA _ kv hkv
  -- skipped keys are untouched on live1
  have huntouched : ∀ k ∈ skipped, lget live1 k = lget nsLabels k := by
    intro k hks
    obtain ⟨v, hkv, hc⟩ := mem_skipped_conflict desired nsLabels config.patterns (hS ▸ hks)
    have hnone : lget allowed k = none := by
      rw [hA]
      exact lget_filter_not_conflict_none desired nsLabels config.patterns hnd hkv hc
    have h1 : lget live1 k = lget (removeStaleLabels nsLabels allowed prevApplied).1 k := by
      rw [hlive1]
      exact applyDesiredGo_not_mem allowed _ k hnone
    rw [h1, removeStaleLabels, removeStaleGo_fst allowed prevApplied nsLabels false k hndp]
    rw [if_neg]
    intro hcond
    obtain ⟨-, hsome, heqv⟩ := hcond
    cases hpv : lget prevApplied k with
    | none => exact hsome hpv
    | some pv =>
      rw [hpv] at heqv
      exact hskip k hks pv hpv heqv.symm
  -- the filter classifies identically on live1
  have hcong : ∀ kv ∈ desired,
      conflictB live1 config.patterns kv.1 kv.2 = conflictB nsLabels config.patterns kv.1 kv.2 := by
    intro kv hkv
    cases hc : conflictB nsLabels config.patterns kv.1 kv.2 with
    | true =>
      have hks : kv.1 ∈ skipped := by
        rw [hS]
        exact List.mem_map.2 ⟨kv, List.mem_filter.2 ⟨hkv, hc⟩, rfl⟩
      exact (conflictB_congr config.patterns kv.1 kv.2 (huntouched kv.1 hks)).trans hc
    | false =>
      have hmemA : kv ∈ allowed := by
        rw [hA]
        exact List.mem_filter.2 ⟨hkv, by simp [hc]⟩
      have hr := hreads kv hmemA
      unfold conflictB
      cases hl : lget live1 kv.1 with
      | none => simp
      | some ev =>
        rw [hl] at hr
        simp at hr
        simp [hr]
  have hsafe2 : config.mode = "fail" → ∀ kv ∈ desired,
      conflictB live1 config.patterns kv.1 kv.2 = false := by
    intro hm kv hkv
    rw [hcong kv hkv]
    exact hsafe hm kv hkv
  constructor
  · rw [filter_eq_ok desired live1 config hsafe2]
    have hfa : (desired.filter fun kv => !conflictB live1 config.patterns kv.1 kv.2) =
        desired.filter fun kv => !conflictB nsLabels config.patterns kv.1 kv.2 :=
      List.filter_congr fun kv hkv => by rw [hcong kv hkv]
    have hfs : (desired.filter fun kv => conflictB live1 config.patterns kv.1 kv.2) =
        desired.filter fun kv => conflictB nsLabels config.patterns kv.1 kv.2 :=
      List.filter_congr fun kv hkv => hcong kv hkv
    rw [hfa, hfs, ← hA, ← hS]
  · have hrm : removeStaleLabels live1 allowed allowed = (live1, false) := by
      apply removeStaleGo_noop
      intro kv hkv
      rw [lget_eq_some_of_mem hndA hkv]
      simp
    have hap : applyDesiredLabels live1 allowed = (live1, false) := by
      apply applyDesiredGo_noop
      intro kv hkv
      exact hreads kv hkv
    rw [applyLabelsToNamespace, hrm]
    dsimp only
    rw [hap]
    rfl

/-- C7 counterexample: the Active transition is not idempotent for all
inputs.  With `desired = {k: B}`, live `{k: A}`, `prevApplied = {k: A}` and
`k` protected in skip mode, the first pass skips `k` but removes it from
the namespace (it is previously applied and no longer in `allowed`), so the
second pass finds no live value, allows `k`, and attempts a namespace
write; the status write is attempted on every pass as well. -/
theorem active_twice_not_noop :
    (reconcileTwice [("k", "B")] [("k", "A")] [("k", "A")]
        { patterns := ["k"], mode := "skip" }
        { applied := false, labelsApplied := [], conditions := [] } 0
        "ns").2.nsWriteAttempted = true ∧
    (reconcileTwice [("k", "B")] [("k", "A")] [("k", "A")]
        { patterns := ["k"], mode := "skip" }
        { applied := false, labelsApplied := [], conditions := [] } 0
        "ns").2.statusWriteAttempted = true := by
  constructor <;> rfl

/-- C7 amended: if the first pass's filter succeeds and no first-pass
skipped key is recorded in `prevApplied` at its current live value (in
particular whenever nothing is skipped), the second Active pass attempts no
namespace write and leaves the namespace labels unchanged; the status
write, however, is attempted on every pass — the status reporter does not
short-circuit on unchanged state. -/
theorem reconcileActive_twice_noop (desired nsLabels prevApplied : Lmap)
    (config : ProtectionConfig) (st : CRStatus) (gen : Nat) (targetNS : String)
    (allowed : Lmap) (skipped : List String)
    (hnd : NodupKeys desired) (hndp : NodupKeys prevApplied)
    (hfil : filterProtectedLabels desired nsLabels config = .ok (allowed, skipped))
    (hskip : ∀ k ∈ skipped, ∀ v, lget prevApplied k = some v → lget nsLabels k ≠ some v) :
    (reconcileTwice desired nsLabels prevApplied config st gen
        targetNS).2.nsWriteAttempted = false ∧
    (reconcileTwice desired nsLabels prevApplied config st gen targetNS).2.nsLabels =
      (reconcileTwice desired nsLabels prevApplied config st gen targetNS).1.nsLabels ∧
    (reconcileTwice desired nsLabels prevApplied config st gen
        targetNS).1.statusWriteAttempted = true ∧
    (reconcileTwice desired nsLabels prevApplied config st gen
        targetNS).2.statusWriteAttempted = true := by
  obtain ⟨hfil2, happ2⟩ :=
    activePass_stable desired nsLabels prevApplied config allowed skipped hnd hndp hfil hskip
  have hp1ns : (reconcileActive desired nsLabels prevApplied config st gen targetNS).nsLabels =
      (applyLabelsToNamespace nsLabels allowed prevApplied).1 := by
    rw [reconcileActive, hfil]
  have hp1an : (reconcileActive desired nsLabels prevApplied config st gen
      targetNS).appliedAnno = allowed := by
    rw [reconcileActive, hfil]
  have h2 : (reconcileTwice desired nsLabels prevApplied config st gen targetNS).2 =
      reconcileActive desired
        (reconcileActive desired nsLabels prevApplied config st gen targetNS).nsLabels
        (reconcileActive desired nsLabels prevApplied config st gen targetNS).appliedAnno
        config
        (reconcileActive desired nsLabels prevApplied config st gen targetNS).status
        gen targetNS := rfl
  have h1 : (reconcileTwice desired nsLabels prevApplied config st gen targetNS).1 =
      reconcileActive desired nsLabels prevApplied config st gen targetNS := rfl
  refine ⟨?_, ?_, ?_, ?_⟩
  · rw [h2, hp1ns, hp1an, reconcileActive, hfil2]
    dsimp only
    rw [happ2]
  · rw [h2, h1, hp1ns, hp1an, reconcileActive, hfil2]
    dsimp only
    rw [happ2]
  · rw [h1, reconcileActive, hfil]
  · rw [h2, hp1ns, hp1an, reconcileActive, hfil2]

theorem reconcileActive_twice_noop_witness :
    (reconcileTwice [("env", "prod")] [] [] { patterns := [], mode := "skip" }
        { applied := false, labelsApplied := [], conditions := [] } 0
        "ns").2.nsWriteAttempted = false ∧
    (reconcileTwice [("env", "prod")] [] [] { patterns := [], mode := "skip" }
        { applied := false, labelsApplied := [], conditions := [] } 0 "ns").2.nsLabels =
      (reconcileTwice [("env", "prod")] [] [] { patterns := [], mode := "skip" }
        { applied := false, labelsApplied := [], conditions := [] } 0 "ns").1.nsLabels ∧
    (reconcileTwice [("env", "prod")] [] [] { patterns := [], mode := "skip" }
        { applied := false, labelsApplied := [], conditions := [] } 0
        "ns").1.statusWriteAttempted = true ∧
    (reconcileTwice [("env", "prod")] [] [] { patterns := [], mode := "skip" }
        { applied := false, labelsApplied := [], conditions := [] } 0
        "ns").2.statusWriteAttempted = true :=
  reconcileActive_twice_noop [("env", "prod")] [] [] { patterns := [], mode := "skip" }
    { applied := false, labelsApplied := [], conditions := [] } 0 "ns"
    [("env", "prod")] [] (by decide) (by decide) rfl
    (fun k hk => absurd hk (List.not_mem_nil k))

/-- C10: a desired key `k` skipped by the protection filter in skip mode is
absent from `allowed` — the map the Active pass then uses both as the
label-algebra's desired set and as the new bookkeeping.  If `k` is recorded
in `prevApplied` at the namespace's current live value, that same pass
deletes `k` from the namespace labels and drops it from the bookkeeping;
on the next pass `k` is absent from the live labels, so the previously
conflicting desired value is applied. -/
theorem skip_mode_removes_previously_applied (desired nsLabels prevApplied : Lmap)
    (config : ProtectionConfig) (st : CRStatus) (gen : Nat) (targetNS : String)
    (k dv ev : String)
    (hnd : NodupKeys desired) (hndp : NodupKeys prevApplied)
    (hmode : config.mode = "skip")
    (hkd : (k, dv) ∈ desired)
    (hprot : isLabelProtected k config.patterns = true)
    (hlive : lget nsLabels k = some ev)
    (hne : ev ≠ dv)
    (hbook : lget prevApplied k = some ev) :
    ∃ allowed skipped,
      filterProtectedLabels desired nsLabels config = .ok (allowed, skipped) ∧
      k ∈ skipped ∧ lget allowed k = none ∧
      lget (reconcileTwice desired nsLabels prevApplied config st gen
        targetNS).1.nsLabels k = none ∧
      lget (reconcileTwice desired nsLabels prevApplied config st gen
        targetNS).1.appliedAnno k = none ∧
      (lget (reconcileTwice desired nsLabels prevApplied config st gen
        targetNS).2.nsLabels k).getD "" = dv ∧
      (dv ≠ "" → lget (reconcileTwice desired nsLabels prevApplied config st gen
        targetNS).2.nsLabels k = some dv) := by
  have hnf : config.mode ≠ "fail" := by rw [hmode]; decide
  have hsafe : config.mode = "fail" → ∀ kv ∈ desired,
      conflictB nsLabels config.patterns kv.1 kv.2 = false := fun hm => absurd hm hnf
  have hc : conflictB nsLabels config.patterns k dv = true :=
    (conflictB_true_iff nsLabels config.patterns k dv).2 ⟨hprot, ev, hlive, hne⟩
  have hfil := filter_eq_ok desired nsLabels config hsafe
  set allowed := desired.filter fun kv => !conflictB nsLabels config.patterns kv.1 kv.2
    with hAdef
  set skipped := (desired.filter fun kv =>
    conflictB nsLabels config.patterns kv.1 kv.2).map Prod.fst with hSdef
  have hks : k ∈ skipped := List.mem_map.2 ⟨(k, dv), List.mem_filter.2 ⟨hkd, hc⟩, rfl⟩
  have hkA : lget allowed k = none :=
    lget_filter_not_conflict_none desired nsLabels config.patterns hnd hkd hc
  -- first pass: k is deleted from the namespace
  have hp1ns : (reconcileActive desired nsLabels prevApplied config st gen targetNS).nsLabels =
      (applyLabelsToNamespace nsLabels allowed prevApplied).1 := by
    rw [reconcileActive, hfil]
  have hp1an : (reconcileActive desired nsLabels prevApplied config st gen
      targetNS).appliedAnno = allowed := by
    rw [reconcileActive, hfil]
  have hdel : lget (applyLabelsToNamespace nsLabels allowed prevApplied).1 k = none := by
    have h1 : lget (applyLabelsToNamespace nsLabels allowed prevApplied).1 k =
        lget (removeStaleLabels nsLabels allowed prevApplied).1 k :=
      applyDesiredGo_not_mem allowed _ k hkA
    rw [h1, removeStaleLabels, removeStaleGo_fst allowed prevApplied nsLabels false k hndp]
    rw [if_pos ⟨hkA, by rw [hbook]; simp, by rw [hbook, hlive]⟩]
  -- second pass: k is absent live, hence allowed and applied
  have hsafe2 : config.mode = "fail" → ∀ kv ∈ desired,
      conflictB (applyLabelsToNamespace nsLabels allowed prevApplied).1
        config.patterns kv.1 kv.2 = false := fun hm => absurd hm hnf
  have hfil2 := filter_eq_ok desired (applyLabelsToNamespace nsLabels allowed prevApplied).1
    config hsafe2
  have hc2 : conflictB (applyLabelsToNamespace nsLabels allowed prevApplied).1
      config.patterns k dv = false := by
    unfold conflictB
    rw [hdel]
    simp
  have hkA2 : (k, dv) ∈ desired.filter fun kv =>
      !conflictB (applyLabelsToNamespace nsLabels allowed prevApplied).1
        config.patterns kv.1 kv.2 :=
    List.mem_filter.2 ⟨hkd, by simp [hc2]⟩
  have hndA2 : NodupKeys (desired.filter fun kv =>
      !conflictB (applyLabelsToNamespace nsLabels allowed prevApplied).1
        config.patterns kv.1 kv.2) :=
    nodupKeys_filter desired _ hnd
  have h2 : (reconcileTwice desired nsLabels prevApplied config st gen targetNS).2 =
      reconcileActive desired
        (reconcileActive desired nsLabels prevApplied config st gen targetNS).nsLabels
        (reconcileActive desired nsLabels prevApplied config st gen targetNS).appliedAnno
        config
        (reconcileActive desired nsLabels prevApplied config st gen targetNS).status
        gen targetNS := rfl
  have h1 : (reconcileTwice desired nsLabels prevApplied config st gen targetNS).1 =
      reconcileActive desired nsLabels prevApplied config st gen targetNS := rfl
  have hp2ns : (reconcileTwice desired nsLabels prevApplied config st gen
      targetNS).2.nsLabels =
      (applyLabelsToNamespace (applyLabelsToNamespace nsLabels allowed prevApplied).1
        (desired.filter fun kv =>
          !conflictB (applyLabelsToNamespace nsLabels allowed prevApplied).1
            config.patterns kv.1 kv.2)
        allowed).1 := by
    rw [h2, hp1ns, hp1an, reconcileActive, hfil2]
  have hgetD : (lget (reconcileTwice desired nsLabels prevApplied config st gen
      targetNS).2.nsLabels k).getD "" = dv := by
    rw [hp2ns]
    exact applyDesiredGo_sets _ hndA2 _ (k, dv) hkA2
  refine ⟨allowed, skipped, hfil, hks, hkA, ?_, ?_, hgetD, ?_⟩
  · rw [h1, hp1ns]
    exact hdel
  · rw [h1, hp1an]
    exact hkA
  · intro hdv
    cases hl : lget (reconcileTwice desired nsLabels prevApplied config st gen
        targetNS).2.nsLabels k with
    | none =>
      rw [hl] at hgetD
      simp at hgetD
      exact absurd hgetD.symm hdv
    | some w =>
      rw [hl] at hgetD
      simp at hgetD
      rw [hgetD]

theorem skip_mode_removes_previously_applied_witness :
    ∃ allowed skipped,
      filterProtectedLabels [("k", "B")] [("k", "A")]
          { patterns := ["k"], mode := "skip" } = .ok (allowed, skipped) ∧
      "k" ∈ skipped ∧ lget allowed "k" = none ∧
      lget (reconcileTwice [("k", "B")] [("k", "A")] [("k", "A")]
        { patterns := ["k"], mode := "skip" }
        { applied := false, labelsApplied := [], conditions := [] } 0
        "ns").1.nsLabels "k" = none ∧
      lget (reconcileTwice [("k", "B")] [("k", "A")] [("k", "A")]
        { patterns := ["k"], mode := "skip" }
        { applied := false, labelsApplied := [], conditions := [] } 0
        "ns").1.appliedAnno "k" = none ∧
      (lget (reconcileTwice [("k", "B")] [("k", "A")] [("k", "A")]
        { patterns := ["k"], mode := "skip" }
        { applied := false, labelsApplied := [], conditions := [] } 0
        "ns").2.nsLabels "k").getD "" = "B" ∧
      ("B" ≠ "" → lget (reconcileTwice [("k", "B")] [("k", "A")] [("k", "A")]
        { patterns := ["k"], mode := "skip" }
        { applied := false, labelsApplied := [], conditions := [] } 0
        "ns").2.nsLabels "k" = some "B") :=
  skip_mode_removes_previously_applied [("k", "B")] [("k", "A")] [("k", "A")]
    { patterns := ["k"], mode := "skip" }
    { applied := false, labelsApplied := [], conditions := [] } 0 "ns"
    "k" "B" "A" (by decide) (by decide) rfl (by decide) (by decide) rfl
    (by decide) rfl

/-! ## Lemmas: protection config loading -/

/-- `filterProtectedLabels` consults the mode only through the comparison
with `"fail"`: two configs with the same patterns and neither in fail mode
behave identically. -/
theorem filter_mode_irrel (desired existing : Lmap) (c1 c2 : ProtectionConfig)
    (hpat : c1.patterns = c2.patterns) (h1 : c1.mode ≠ "fail") (h2 : c2.mode ≠ "fail") :
    filterProtectedLabels desired existing c1 = filterProtectedLabels desired existing c2 := by
  induction desired with
  | nil => rfl
  | cons a rest ih =>
    obtain ⟨key, value⟩ := a
    rw [filterProtectedLabels, filterProtectedLabels, hpat]
    by_cases hp : isLabelProtected key c2.patterns
    · rw [if_pos hp, if_pos hp]
      cases hex : lget existing key with
      | some ev =>
        dsimp only
        by_cases hvv : ev ≠ value
        · rw [if_pos hvv, if_pos hvv, if_neg h1, if_neg h2, ih]
        · rw [if_neg hvv, if_neg hvv, ih]
      | none => rw [ih]
    · rw [if_neg hp, if_neg hp, ih]

/-- C8: loading the protection configuration never fails on content — the
model `getProtectionConfig` is a total function of the ConfigMap state
(the only error branch in the code is a non-NotFound store I/O error).  An
absent ConfigMap yields the empty pattern list with mode `"skip"`, and a
present but unrecognized mode string (neither `"skip"` nor `"fail"`)
behaves exactly as skip mode: the filter treats any non-`"fail"` mode as
skip, so a protection conflict is skipped and never aborts the pass. -/
theorem getProtectionConfig_degrades :
    getProtectionConfig none = { patterns := [], mode := "skip" } ∧
    ∀ data desired existing,
      (getProtectionConfig (some data)).mode ≠ "skip" →
      (getProtectionConfig (some data)).mode ≠ "fail" →
      filterProtectedLabels desired existing (getProtectionConfig (some data)) =
        filterProtectedLabels desired existing
          { patterns := (getProtectionConfig (some data)).patterns, mode := "skip" } := by
  refine ⟨rfl, fun data desired existing _ hf => ?_⟩
  refine filter_mode_irrel desired existing _ _ rfl hf ?_
  intro h
  dsimp only at h
  exact absurd h (by decide)

theorem getProtectionConfig_degrades_witness :
    (getProtectionConfig (some [("mode", "warn")])).mode ≠ "skip" ∧
    (getProtectionConfig (some [("mode", "warn")])).mode ≠ "fail" ∧
    filterProtectedLabels [("k", "B")] [("k", "A")]
        (getProtectionConfig (some [("mode", "warn")])) =
      filterProtectedLabels [("k", "B")] [("k", "A")]
        { patterns := (getProtectionConfig (some [("mode", "warn")])).patterns,
          mode := "skip" } :=
  ⟨by decide, by decide,
    getProtectionConfig_degrades.2 [("mode", "warn")] [("k", "B")] [("k", "A")]
      (by decide) (by decide)⟩

/-! ## Claim theorem: drift detector -/

/-- C9: `detectDrift` returns `true` iff some key recorded in `prevApplied`
is still in `desired` and its live value is missing from `liveLabels` or
differs from the previously-applied value; being a pure function of its
three arguments, it modifies none of them. -/
theorem detectDrift_iff (liveLabels prevApplied desired : Lmap) :
    detectDrift liveLabels prevApplied desired = true ↔
      ∃ kv ∈ prevApplied, (lget desired kv.1).isSome = true ∧
        lget liveLabels kv.1 ≠ some kv.2 := by
  unfold detectDrift
  rw [List.any_eq_true]
  constructor
  · rintro ⟨kv, hkv, hp⟩
    rw [Bool.and_eq_true] at hp
    obtain ⟨hd, hl⟩ := hp
    refine ⟨kv, hkv, hd, ?_⟩
    cases hlv : lget liveLabels kv.1 with
    | none => simp
    | some l =>
      rw [hlv] at hl
      simp at hl
      simp [hl]
  · rintro ⟨kv, hkv, hd, hl⟩
    refine ⟨kv, hkv, ?_⟩
    rw [Bool.and_eq_true]
    refine ⟨hd, ?_⟩
    cases hlv : lget liveLabels kv.1 with
    | none => rfl
    | some l =>
      rw [hlv] at hl
      simp at hl
      simp [hl]

/-- Sanity check mirroring the repository's first `detectDrift` unit test:
manually changed live values are reported as drift. -/
theorem detectDrift_manual_change :
    detectDrift [("app", "manually-changed"), ("version", "v2.0")]
      [("app", "original-value"), ("version", "v1.0")]
      [("app", "original-value"), ("version", "v1.0")] = true := by
  decide

/-- Sanity check mirroring the repository's second `detectDrift` unit test:
no drift when live values match. -/
theorem detectDrift_no_drift :
    detectDrift [("app", "correct-value"), ("version", "v1.0")]
      [("app", "correct-value"), ("version", "v1.0")]
      [("app", "correct-value"), ("version", "v1.0")] = false := by
  decide

/-! ## Lemmas: pattern matcher -/

theorem scanBody_length_aux : ∀ (N : Nat) (p : List Char), p.length ≤ N → ∀ inr : Bool,
    (scanBody inr p).1.length + (scanBody inr p).2.length = p.length := by
  intro N
  induction N with
  | zero =>
    intro p hp inr
    have hnil : p = [] := List.eq_nil_of_length_eq_zero (Nat.le_zero.1 hp)
    subst hnil
    simp [scanBody]
  | succ N ih =>
    intro p hp inr
    cases p with
    | nil => simp [scanBody]
    | cons c cs =>
      rw [scanBody.eq_def]
      dsimp only
      by_cases h1 : c = '\\'
      · rw [if_pos h1]
        cases cs with
        | nil => simp
        | cons d ds =>
          dsimp only
          have hds := ih ds (by simp at hp; omega) inr
          simp only [List.length_cons]
          omega
      · rw [if_neg h1]
        have hcs := fun inr' => ih cs (by simp at hp; omega) inr'
        by_cases h2 : c = '['
        · rw [if_pos h2]
          dsimp only
          have := hcs true
          simp only [List.length_cons]
          omega
        · rw [if_neg h2]
          by_cases h3 : c = ']'
          · rw [if_pos h3]
            dsimp only
            have := hcs false
            simp only [List.length_cons]
            omega
          · rw [if_neg h3]
            by_cases h4 : c = '*'
            · rw [if_pos h4]
              by_cases h5 : inr
              · rw [if_pos h5]
                dsimp only
                have := hcs inr
                simp only [List.length_cons]
                omega
              · rw [if_neg h5]
                simp
            · rw [if_neg h4]
              dsimp only
              have := hcs inr
              simp only [List.length_cons]
              omega

theorem scanBody_length (p : List Char) (inr : Bool) :
    (scanBody inr p).1.length + (scanBody inr p).2.length = p.length :=
  scanBody_length_aux p.length p (le_refl _) inr

theorem dropStars_length_le : ∀ p : List Char, (dropStars p).length ≤ p.length := by
  intro p
  induction p with
  | nil => simp [dropStars]
  | cons c cs ih =>
    rw [dropStars]
    by_cases h : c = '*'
    · rw [if_pos h]
      exact Nat.le_trans ih (by simp)
    · rw [if_neg h]

theorem scanBody_fst_ne_nil (c : Char) (cs : List Char) (hc : c ≠ '*') :
    (scanBody false (c :: cs)).1 ≠ [] := by
  rw [scanBody.eq_def]
  dsimp only
  by_cases h1 : c = '\\'
  · rw [if_pos h1]
    cases cs <;> simp
  · rw [if_neg h1]
    by_cases h2 : c = '['
    · rw [if_pos h2]; simp
    · rw [if_neg h2]
      by_cases h3 : c = ']'
      · rw [if_pos h3]; simp
      · rw [if_neg h3, if_neg hc]
        simp

theorem scanChunk_star_rest_lt (p : List Char) (h : (scanChunk p).1 = true) :
    (scanChunk p).2.2.length < p.length := by
  cases p with
  | nil => simp [scanChunk] at h
  | cons c cs =>
    have hc : c = '*' := by
      simpa [scanChunk] using h
    subst hc
    have hdrop : dropStars ('*' :: cs) = dropStars cs := by
      rw [dropStars, if_pos rfl]
    have h1 : (scanChunk ('*' :: cs)).2.2 = (scanBody false (dropStars cs)).2 := by
      simp [scanChunk, hdrop]
    rw [h1]
    have h2 := scanBody_length (dropStars cs) false
    have h3 := dropStars_length_le cs
    simp only [List.length_cons]
    omega

theorem scanChunk_rest_lt (p : List Char) (hp : p ≠ [])
    (h : ¬((scanChunk p).1 = true ∧ (scanChunk p).2.1 = [])) :
    (scanChunk p).2.2.length < p.length := by
  by_cases hs : (scanChunk p).1 = true
  · exact scanChunk_star_rest_lt p hs
  · cases p with
    | nil => exact absurd rfl hp
    | cons c cs =>
      have hc : c ≠ '*' := by
        intro hc
        exact hs (by simp [scanChunk, hc])
      have hdrop : dropStars (c :: cs) = c :: cs := by rw [dropStars, if_neg hc]
      have hchunk : (scanBody false (c :: cs)).1 ≠ [] := scanBody_fst_ne_nil c cs hc
      have hlen := scanBody_length (c :: cs) false
      have h1 : (scanChunk (c :: cs)).2.2 = (scanBody false (c :: cs)).2 := by
        simp [scanChunk, hdrop]
      rw [h1]
      have hpos : 0 < (scanBody false (c :: cs)).1.length := List.length_pos.2 hchunk
      omega

theorem starLoopAux_congr (m1 m2 : List Char → List Char → Option Bool)
    (chunk rest : List Char) (h : ∀ t, m1 rest t = m2 rest t) :
    ∀ name, starLoopAux m1 chunk rest name = starLoopAux m2 chunk rest name := by
  intro name
  induction name with
  | nil => rfl
  | cons c cs ih =>
    rw [starLoopAux, starLoopAux]
    by_cases hc : c = '/'
    · rw [if_pos hc, if_pos hc]
    · rw [if_neg hc, if_neg hc]
      cases matchChunk chunk cs with
      | ok t =>
        dsimp only
        by_cases ht : rest.isEmpty && !t.isEmpty
        · rw [if_pos ht, if_pos ht, ih]
        · rw [if_neg ht, if_neg ht, h t]
      | fail => exact ih
      | bad => rfl

/-- The outer loop of the matcher does not depend on the fuel, provided the
fuel strictly exceeds the pattern length (every `continue` of Go's
`Pattern` loop strictly shortens the pattern). -/
theorem matchLoop_fuel_high : ∀ (N f₁ f₂ : Nat) (p n : List Char),
    p.length < f₁ → p.length < f₂ → f₁ + f₂ ≤ N →
    matchLoop f₁ p n = matchLoop f₂ p n := by
  intro N
  induction N with
  | zero =>
    intro f₁ f₂ p n h1 h2 hN
    omega
  | succ N ih =>
    intro f₁ f₂ p n h1 h2 hN
    cases f₁ with
    | zero => omega
    | succ g₁ =>
      cases f₂ with
      | zero => omega
      | succ g₂ =>
        cases p with
        | nil => rfl
        | cons c cs =>
          rw [matchLoop, matchLoop]
          by_cases hstar : ((scanChunk (c :: cs)).1 && (scanChunk (c :: cs)).2.1.isEmpty) = true
          · rw [if_pos hstar, if_pos hstar]
          · rw [if_neg hstar, if_neg hstar]
            have hrlt : (scanChunk (c :: cs)).2.2.length < (c :: cs).length := by
              apply scanChunk_rest_lt _ (by simp)
              intro hcontra
              exact hstar (by simp [hcontra.1, hcontra.2])
            have hcall : ∀ t, matchLoop g₁ (scanChunk (c :: cs)).2.2 t =
                matchLoop g₂ (scanChunk (c :: cs)).2.2 t := by
              intro t
              apply ih g₁ g₂ _ t ?_ ?_ ?_ <;> simp only [List.length_cons] at * <;> omega
            cases matchChunk (scanChunk (c :: cs)).2.1 n with
            | ok t =>
              dsimp only
              by_cases ht : (t.isEmpty || !(scanChunk (c :: cs)).2.2.isEmpty) = true
              · rw [if_pos ht, if_pos ht, hcall t]
              · rw [if_neg ht, if_neg ht]
                by_cases hs : (scanChunk (c :: cs)).1 = true
                · rw [if_pos hs, if_pos hs]
                  exact starLoopAux_congr _ _ _ _ hcall n
                · rw [if_neg hs, if_neg hs]
            | bad => rfl
            | fail =>
              dsimp only
              by_cases hs : (scanChunk (c :: cs)).1 = true
              · rw [if_pos hs, if_pos hs]
                exact starLoopAux_congr _ _ _ _ hcall n
              · rw [if_neg hs, if_neg hs]

theorem matchLoop_fuel (f₁ f₂ : Nat) (p n : List Char)
    (h1 : p.length < f₁) (h2 : p.length < f₂) :
    matchLoop f₁ p n = matchLoop f₂ p n :=
  matchLoop_fuel_high (f₁ + f₂) f₁ f₂ p n h1 h2 (le_refl _)

/-- A bare `*` pattern matches exactly the names without a separator:
Go's `Match` returns `!strings.Contains(name, "/")` for a trailing star. -/
theorem filepathMatch_star (n : List Char) :
    filepathMatch ['*'] n = some (!(n.contains '/')) := rfl

/-- Consecutive wildcards collapse: `scanChunk` consumes every leading star
of a chunk, so doubling a star never changes the match. -/
theorem filepathMatch_two_star (p n : List Char) :
    filepathMatch ('*' :: '*' :: p) n = filepathMatch ('*' :: p) n := by
  show matchLoop (('*' :: '*' :: p).length + 1) ('*' :: '*' :: p) n =
    matchLoop (('*' :: p).length + 1) ('*' :: p) n
  have hsc : scanChunk ('*' :: '*' :: p) = scanChunk ('*' :: p) := by
    simp [scanChunk, dropStars]
  rw [show (('*' :: '*' :: p).length + 1) = (p.length + 2) + 1 from by
        simp only [List.length_cons],
      show (('*' :: p).length + 1) = (p.length + 1) + 1 from by
        simp only [List.length_cons]]
  rw [matchLoop, matchLoop, hsc]
  by_cases hstar : ((scanChunk ('*' :: p)).1 && (scanChunk ('*' :: p)).2.1.isEmpty) = true
  · rw [if_pos hstar, if_pos hstar]
  · rw [if_neg hstar, if_neg hstar]
    have hrlt : (scanChunk ('*' :: p)).2.2.length < ('*' :: p).length :=
      scanChunk_star_rest_lt _ (by simp [scanChunk])
    have hcall : ∀ t, matchLoop (p.length + 2) (scanChunk ('*' :: p)).2.2 t =
        matchLoop (p.length + 1) (scanChunk ('*' :: p)).2.2 t := by
      intro t
      apply matchLoop_fuel <;> simp only [List.length_cons] at hrlt <;> omega
    cases matchChunk (scanChunk ('*' :: p)).2.1 n with
    | ok t =>
      dsimp only
      by_cases ht : (t.isEmpty || !(scanChunk ('*' :: p)).2.2.isEmpty) = true
      · rw [if_pos ht, if_pos ht, hcall t]
      · rw [if_neg ht, if_neg ht]
        by_cases hs : (scanChunk ('*' :: p)).1 = true
        · rw [if_pos hs, if_pos hs]
          exact starLoopAux_congr _ _ _ _ hcall n
        · rw [if_neg hs, if_neg hs]
    | bad => rfl
    | fail =>
      dsimp only
      by_cases hs : (scanChunk ('*' :: p)).1 = true
      · rw [if_pos hs, if_pos hs]
        exact starLoopAux_congr _ _ _ _ hcall n
      · rw [if_neg hs, if_neg hs]

/-- C3 counterexample: `filepath.Match`'s `*` matches runs of
**non-separator** characters only, so the single pattern `"*"` does not
match a key containing a `/` — the claim asserts it matches every key. -/
theorem star_does_not_cross_slash : isLabelProtected "a/b" ["*"] = false := by decide

/-- C3 amended: `*` matches any run of characters **within a
`/`-separated segment** of the key (never across `/`): the single pattern
`"*"` matches exactly the keys that contain no `/`.  Consecutive `*`
collapse to a single `*`. -/
theorem star_within_segment_and_collapse :
    (∀ key : String, isLabelProtected key ["*"] = !(key.data.contains '/')) ∧
    (∀ p n : List Char, filepathMatch ('*' :: '*' :: p) n = filepathMatch ('*' :: p) n) := by
  constructor
  · intro key
    have h2 : normPat "*" = ['*'] := rfl
    simp only [isLabelProtected]
    rw [if_neg (show ("*" : String) ≠ "" by decide), h2, filepathMatch_star]
    cases hb : key.data.contains '/' <;> simp [isLabelProtected]
  · exact filepathMatch_two_star

/-- C5: a pattern on which the matcher errors (`ErrBadPattern`, modelled
`none`) evaluates to non-matching and does not stop the evaluation of
subsequent patterns; in particular the malformed `"kubernetes.io/["` is
ignored, so `"kubernetes.io/*"` still matches; the empty pattern list never
matches and empty-string patterns are ignored. -/
theorem malformed_pattern_skipped :
    (∀ (key p : String) (ps : List String), p ≠ "" →
      filepathMatch (normPat p) key.data = none →
      isLabelProtected key (p :: ps) = isLabelProtected key ps) ∧
    isLabelProtected "kubernetes.io/test" ["kubernetes.io/[", "kubernetes.io/*"] = true ∧
    (∀ key : String, isLabelProtected key [] = false) ∧
    (∀ (key : String) (ps : List String),
      isLabelProtected key ("" :: ps) = isLabelProtected key ps) := by
  refine ⟨?_, by decide, fun key => rfl, ?_⟩
  · intro key p ps hp hm
    simp only [isLabelProtected]
    rw [if_neg hp, hm]
  · intro key ps
    simp [isLabelProtected]

theorem malformed_pattern_skipped_witness :
    isLabelProtected "kubernetes.io/test" ["kubernetes.io/[", "kubernetes.io/*"] =
      isLabelProtected "kubernetes.io/test" ["kubernetes.io/*"] :=
  malformed_pattern_skipped.1 "kubernetes.io/test" "kubernetes.io/[" ["kubernetes.io/*"]
    (by decide) (by decide)
